import Mathlib

/-!
# postService/sqlite.go : the feed store

A shallow embedding of `src/postService/sqlite.go`.  The database behind
`SqliteStorage.db` is the pair of tables created by `createPostTable` and
`createLikeTable`; each table is the list of its rows in insertion order.
Every method of `SqliteStorage` becomes a function of the tables (and of the
clock reading `time.Now().Unix()`, passed as `now`).

Modelling conventions
* SQLite `INTEGER` columns and Go `int64`/`int32` values are `Int`.  The only
  arithmetic is `totalLikes ± 1` and `totalReplies ± 1`.
* `TEXT` comparison is the default `BINARY` collation, i.e. equality of strings.
* The engine is taken to execute every statement; the failures that are
  modelled are the ones decided by the table contents: `sql.ErrNoRows` from
  `QueryRow(..).Scan`, and a constraint violation on `INSERT`.
* A mutating method returns the tables after the call together with the Go
  `error` (`none` for `nil`).  `tx.Rollback()` gives back the tables as they
  were at `Begin`, `tx.Commit()` the tables written by the transaction.
-/

namespace PostService

/-! ## Tables -/

/-- A row of table `posts` (`createPostTable`, lines 64-86).  `image` is nullable
in the schema; the only `INSERT` (`CreatePost`) binds a Go string to it. -/
structure PostRow where
  id : String
  image : String
  body : String
  idUser : String
  username : String
  name : String
  profile : String
  totalLikes : Int
  totalReplies : Int
  createdAt : Int
  updatedAt : Int
  deletedAt : Option Int
  deriving DecidableEq

/-- A row of table `likes` (`createLikeTable`, lines 45-62). -/
structure LikeRow where
  id : String
  idUser : String
  idPost : String
  createdAt : Int
  updatedAt : Int
  deletedAt : Option Int
  deriving DecidableEq

/-- The database held by `SqliteStorage.db`: the two tables. -/
structure SqliteStorage where
  posts : List PostRow
  likes : List LikeRow
  deriving DecidableEq

/-- Modelled from the spec: the Go struct `Post` is declared outside
`sqlite.go`; its fields are the twelve destinations of the `Scan` calls, typed
after the columns they receive (spec section 3 and the viewer-relative
`isLiked` flag of section 4.4). -/
structure Post where
  Id : String
  Image : String
  Body : String
  IdUser : String
  Username : String
  Name : String
  Profile : String
  TotalLikes : Int
  TotalReplies : Int
  CreatedAt : Int
  UpdatedAt : Int
  ISLiked : Bool
  deriving DecidableEq

/-- The Go `error` values the methods can return on the modelled paths. -/
inductive Error where
  /-- The value `sql.ErrNoRows`, returned by `QueryRow(..).Scan` when no row matches. -/
  | ErrNoRows
  /-- A `sqlite3` constraint failure (`PRIMARY KEY` or `UNIQUE`) on `INSERT`. -/
  | ErrConstraint
  /-- The value `fmt.Errorf("post doesnt exists")`, line 116. -/
  | postDoesntExists
  /-- The value `fmt.Errorf("like already deleted")`, line 186. -/
  | likeAlreadyDeleted
  deriving DecidableEq

/-- What a mutating method leaves behind: the tables and the returned `error`. -/
structure Outcome where
  db : SqliteStorage
  err : Option Error
  deriving DecidableEq

/-- The freshly initialised database: both tables exist and are empty. -/
def emptyDb : SqliteStorage := ⟨[], []⟩

/-! ## Like management -/

/-- Method `CreateLike` (lines 89-156).  `unixEpoch` is `now`. -/
def CreateLike (s : SqliteStorage) (now : Int) (id userId postId : String) : Outcome :=
  -- stmt1: SELECT id FROM posts WHERE id = ?   (QueryRow: first row or ErrNoRows)
  match (s.posts.filter (fun p => decide (p.id = postId))).head? with
  | none => ⟨s, some Error.ErrNoRows⟩
  | some row =>
    let testSelect : Option String := some row.id
    if testSelect = none then ⟨s, some Error.postDoesntExists⟩
    else
      -- stmt2: INSERT INTO likes (id, idUser, idPost, createdAt, updatedAt)
      if (∃ l ∈ s.likes, l.id = id) ∨ (∃ l ∈ s.likes, l.idPost = postId ∧ l.idUser = userId) then
        ⟨s, some Error.ErrConstraint⟩
      else
        let likes1 := s.likes ++ [⟨id, userId, postId, now, now, none⟩]
        -- stmt3: UPDATE posts SET totalLikes = totalLikes + 1 WHERE id = ?
        let posts1 := s.posts.map
          (fun p => if p.id = postId then { p with totalLikes := p.totalLikes + 1 } else p)
        ⟨⟨posts1, likes1⟩, none⟩

/-- Method `DeleteLike` (lines 159-226). -/
def DeleteLike (s : SqliteStorage) (idPost idUser : String) : Outcome :=
  -- stmt1: SELECT id FROM likes WHERE idPost = ? AND idUser = ?
  match (s.likes.filter (fun l => decide (l.idPost = idPost ∧ l.idUser = idUser))).head? with
  | none => ⟨s, some Error.ErrNoRows⟩
  | some row =>
    let testSelect : Option String := some row.id
    if testSelect = none then ⟨s, some Error.likeAlreadyDeleted⟩
    else
      -- stmt2: DELETE FROM likes WHERE idPost = ? AND idUser = ?
      let likes1 := s.likes.filter (fun l => decide (¬ (l.idPost = idPost ∧ l.idUser = idUser)))
      -- stmt3: UPDATE posts SET totalLikes = totalLikes - 1 WHERE id = ?
      let posts1 := s.posts.map
        (fun p => if p.id = idPost then { p with totalLikes := p.totalLikes - 1 } else p)
      ⟨⟨posts1, likes1⟩, none⟩

/-! ## Post mutation -/

/-- Method `CreatePost` (lines 629-665): the counters take the column default 0 and
`deletedAt` is left `NULL`. -/
def CreatePost (s : SqliteStorage) (now : Int)
    (id image body idUser username name profile : String) : Outcome :=
  if ∃ p ∈ s.posts, p.id = id then ⟨s, some Error.ErrConstraint⟩
  else
    ⟨⟨s.posts ++ [⟨id, image, body, idUser, username, name, profile, 0, 0, now, now, none⟩],
      s.likes⟩, none⟩

/-- Method `UpdatePostBody` (lines 341-364). -/
def UpdatePostBody (s : SqliteStorage) (now : Int) (id body userid : String) : Outcome :=
  ⟨⟨s.posts.map (fun p =>
      if p.id = id ∧ p.idUser = userid ∧ p.deletedAt = none then
        { p with body := body, updatedAt := now }
      else p), s.likes⟩, none⟩

/-- Method `DeletePostById` (lines 575-599). -/
def DeletePostById (s : SqliteStorage) (now : Int) (id userId : String) : Outcome :=
  ⟨⟨s.posts.map (fun p =>
      if p.id = id ∧ p.idUser = userId ∧ p.deletedAt = none then
        { p with deletedAt := some now }
      else p), s.likes⟩, none⟩

/-- Method `UpdateUserDetail` (lines 601-627). -/
def UpdateUserDetail (s : SqliteStorage) (now : Int) (idUser profile name : String) : Outcome :=
  ⟨⟨s.posts.map (fun p =>
      if p.idUser = idUser ∧ p.deletedAt = none then
        { p with name := name, profile := profile, updatedAt := now }
      else p), s.likes⟩, none⟩

/-- Method `IncrementTotalReplyById` (lines 303-320). -/
def IncrementTotalReplyById (s : SqliteStorage) (id : String) : Outcome :=
  ⟨⟨s.posts.map (fun p =>
      if p.id = id then { p with totalReplies := p.totalReplies + 1 } else p), s.likes⟩, none⟩

/-- Method `DecrementTotalReplyById` (lines 322-339). -/
def DecrementTotalReplyById (s : SqliteStorage) (id : String) : Outcome :=
  ⟨⟨s.posts.map (fun p =>
      if p.id = id then { p with totalReplies := p.totalReplies - 1 } else p), s.likes⟩, none⟩

/-! ## Feed queries -/

/-- The join `FROM posts p LEFT JOIN likes l ON p.id = l.idPost AND l.idUser = ?`:
one joined row per matching like, or the post padded with `NULL`s when no
like matches. -/
def leftJoinLikes (s : SqliteStorage) (viewer : String) : List (PostRow × Option LikeRow) :=
  s.posts.flatMap (fun p =>
    match s.likes.filter (fun l => decide (p.id = l.idPost ∧ l.idUser = viewer)) with
    | [] => [(p, none)]
    | l :: ls => (l :: ls).map (fun m => (p, some m)))

/-- The clause `ORDER BY p.createdAt DESC`.  Rows with equal `createdAt` keep their
relative order here; SQLite leaves their order open. -/
def orderByCreatedAtDesc (rows : List (PostRow × Option LikeRow)) :
    List (PostRow × Option LikeRow) :=
  rows.insertionSort (fun a b => a.1.createdAt ≥ b.1.createdAt)

/-- The clause `LIMIT ?`: a negative bound means no bound. -/
def sqlLimit {α : Type} (limit : Int) (rows : List α) : List α :=
  if limit < 0 then rows else rows.take limit.toNat

/-- The cursor substitution `if cursor == 0 { cursor = 922337203685477 }`
(lines 266-268, 407-409, 482-484). -/
def cursorOrStart (cursor : Int) : Int :=
  if cursor = 0 then 922337203685477 else cursor

/-- The call `rows.Scan` into a `Post`; the last column is
`CASE WHEN l.id IS NOT NULL THEN TRUE ELSE FALSE END`. -/
def scanPost (r : PostRow × Option LikeRow) : Post :=
  { Id := r.1.id, Image := r.1.image, Body := r.1.body, IdUser := r.1.idUser,
    Username := r.1.username, Name := r.1.name, Profile := r.1.profile,
    TotalLikes := r.1.totalLikes, TotalReplies := r.1.totalReplies,
    CreatedAt := r.1.createdAt, UpdatedAt := r.1.updatedAt,
    ISLiked := match r.2 with
      | some _ => true
      | none => false }

/-- The rows selected by the query of `ListPost`, before `Scan`. -/
def listPostRows (s : SqliteStorage) (currentUserId : String) (cursor limit : Int) :
    List (PostRow × Option LikeRow) :=
  sqlLimit limit (orderByCreatedAtDesc
    ((leftJoinLikes s currentUserId).filter
      (fun r => decide (r.1.deletedAt = none ∧ r.1.createdAt < cursorOrStart cursor))))

/-- Method `ListPost` (lines 445-517): the posts appended to `*posts`. -/
def ListPost (s : SqliteStorage) (currentUserId : String) (cursor limit : Int) : List Post :=
  (listPostRows s currentUserId cursor limit).map scanPost

/-- Method `ListPostByUser` (lines 367-442): `userId` is bound both to the join
condition and to `p.idUser = ?`. -/
def ListPostByUser (s : SqliteStorage) (cursor : Int) (userId : String) (limit : Int) :
    List Post :=
  (sqlLimit limit (orderByCreatedAtDesc
    ((leftJoinLikes s userId).filter
      (fun r => decide (r.1.idUser = userId ∧ r.1.deletedAt = none ∧
        r.1.createdAt < cursorOrStart cursor))))).map scanPost

/-- Method `ListLikedByUser` (lines 229-301): `WHERE l.idUser = ?` is not satisfied by
a row padded with `NULL`s. -/
def ListLikedByUser (s : SqliteStorage) (cursor : Int) (userId : String) (limit : Int) :
    List Post :=
  (sqlLimit limit (orderByCreatedAtDesc
    ((leftJoinLikes s userId).filter
      (fun r => decide ((∃ l, r.2 = some l ∧ l.idUser = userId) ∧ r.1.deletedAt = none ∧
        r.1.createdAt < cursorOrStart cursor))))).map scanPost

/-- Method `GetPostById` (lines 520-573): `QueryRow(..).Scan` of the first row
(`LIMIT 1`), `sql.ErrNoRows` when there is none. -/
def GetPostById (s : SqliteStorage) (currentUserId id : String) : Except Error Post :=
  match ((leftJoinLikes s currentUserId).filter
      (fun r => decide (r.1.id = id ∧ r.1.deletedAt = none))).head? with
  | none => Except.error Error.ErrNoRows
  | some r => Except.ok (scanPost r)

/-! ## Histories of the store -/

/-- A call of one of the mutating methods, with its arguments (and the clock
reading where the method takes one). -/
inductive Op where
  | createPost (now : Int) (id image body idUser username name profile : String)
  | updatePostBody (now : Int) (id body userid : String)
  | deletePostById (now : Int) (id userId : String)
  | updateUserDetail (now : Int) (idUser profile name : String)
  | incrementTotalReplyById (id : String)
  | decrementTotalReplyById (id : String)
  | createLike (now : Int) (id userId postId : String)
  | deleteLike (idPost idUser : String)
  deriving DecidableEq

/-- The outcome of one call. -/
def Op.call (s : SqliteStorage) : Op → Outcome
  | .createPost now id image body idUser username name profile =>
      CreatePost s now id image body idUser username name profile
  | .updatePostBody now id body userid => UpdatePostBody s now id body userid
  | .deletePostById now id userId => DeletePostById s now id userId
  | .updateUserDetail now idUser profile name => UpdateUserDetail s now idUser profile name
  | .incrementTotalReplyById id => IncrementTotalReplyById s id
  | .decrementTotalReplyById id => DecrementTotalReplyById s id
  | .createLike now id userId postId => CreateLike s now id userId postId
  | .deleteLike idPost idUser => DeleteLike s idPost idUser

/-- The tables after a sequence of calls, failed calls included. -/
def runOps (s : SqliteStorage) (ops : List Op) : SqliteStorage :=
  ops.foldl (fun t op => (op.call t).db) s

/-- A store state: what the tables can hold after some sequence of calls on
the freshly initialised database. -/
def Reachable (s : SqliteStorage) : Prop :=
  ∃ ops : List Op, runOps emptyDb ops = s

/-- A call of `CreateLike` or of `DeleteLike`, with its arguments. -/
inductive LikeCall where
  | create (now : Int) (id userId postId : String)
  | delete (idPost idUser : String)
  deriving DecidableEq

/-- A like call as a call of the store. -/
def LikeCall.toOp : LikeCall → Op
  | .create now id userId postId => .createLike now id userId postId
  | .delete idPost idUser => .deleteLike idPost idUser

/-- The tables after a sequence of `CreateLike` and `DeleteLike` calls, failed
calls included. -/
def runLikeCalls (s : SqliteStorage) (calls : List LikeCall) : SqliteStorage :=
  runOps s (calls.map LikeCall.toOp)

/-- The number of rows of `likes` whose `idPost` is `postId`. -/
def likeCount (s : SqliteStorage) (postId : String) : Nat :=
  s.likes.countP (fun l => decide (l.idPost = postId))

/-- The caller loop of keyset pagination over `ListPost`: fetch a page, stop
when it is empty, otherwise continue from the `CreatedAt` of its last row.
`fuel` bounds the number of pages fetched; `none` means the loop has not
stopped within that bound. -/
def traverseListPost (s : SqliteStorage) (currentUserId : String) (limit : Int) :
    Nat → Int → Option (List Post)
  | 0, _ => none
  | fuel + 1, cursor =>
    let page := ListPost s currentUserId cursor limit
    match page.getLast? with
    | none => some []
    | some last =>
      (traverseListPost s currentUserId limit fuel last.CreatedAt).map (fun rest => page ++ rest)

/-- What every history keeps: the schema constraints (`PRIMARY KEY` on both
tables, `UNIQUE(idPost, idUser)` on `likes`), every like refers to a post that
is in `posts`, and `totalLikes` counts the likes of the post. -/
structure Inv (s : SqliteStorage) : Prop where
  postIds : (s.posts.map (fun p => p.id)).Nodup
  likeIds : (s.likes.map (fun l => l.id)).Nodup
  likePairs : (s.likes.map (fun l => (l.idPost, l.idUser))).Nodup
  likeRef : ∀ l ∈ s.likes, ∃ p ∈ s.posts, p.id = l.idPost
  counter : ∀ p ∈ s.posts, p.totalLikes = (likeCount s p.id : Int)

/-- The joined row of post `p` for `viewer`: the post with the first like of
`viewer` on it, if any.  Under `UNIQUE(idPost, idUser)` it is the only row the
join produces for `p` (`leftJoinLikes_eq_map`). -/
def joinRow (s : SqliteStorage) (viewer : String) (p : PostRow) : PostRow × Option LikeRow :=
  (p, (s.likes.filter (fun l => decide (p.id = l.idPost ∧ l.idUser = viewer))).head?)

/-- The `Post` scanned from the columns of post row `p` and the flag `isLiked`. -/
def postWithFlag (p : PostRow) (isLiked : Bool) : Post :=
  { Id := p.id, Image := p.image, Body := p.body, IdUser := p.idUser,
    Username := p.username, Name := p.name, Profile := p.profile,
    TotalLikes := p.totalLikes, TotalReplies := p.totalReplies,
    CreatedAt := p.createdAt, UpdatedAt := p.updatedAt, ISLiked := isLiked }

/-- Post `a` is at least as new as post `b`: the order of `ORDER BY createdAt DESC`. -/
def newestFirst (a b : PostRow) : Prop := a.createdAt ≥ b.createdAt

instance : DecidableRel newestFirst :=
  fun a b => inferInstanceAs (Decidable (a.createdAt ≥ b.createdAt))

instance : IsTotal PostRow newestFirst := ⟨fun a b => le_total b.createdAt a.createdAt⟩

instance : IsTrans PostRow newestFirst :=
  ⟨fun _ _ _ hab hbc => Int.le_trans hbc hab⟩

/-! ## Sample histories -/

/-- Two posts of author `alice`; `bob` likes the first, `alice` likes the
second; `carol` then likes and unlikes the first. -/
def sampleOps : List Op :=
  [ .createPost 100 "p1" "img1" "first" "alice" "alice01" "Alice" "pic-a",
    .createPost 200 "p2" "img2" "second" "alice" "alice01" "Alice" "pic-a",
    .createLike 210 "l1" "bob" "p1",
    .createLike 220 "l2" "alice" "p2",
    .createLike 230 "l3" "carol" "p1",
    .deleteLike "p1" "carol" ]

/-- The tables after `sampleOps`. -/
def sampleDb : SqliteStorage := runOps emptyDb sampleOps

/-- The live posts of the store, newest first. -/
def liveNewestFirst (s : SqliteStorage) : List PostRow :=
  (s.posts.filter (fun p => decide (p.deletedAt = none))).insertionSort newestFirst

/-- One post, created when the clock read 922337203685477. -/
def lateDb : SqliteStorage :=
  runOps emptyDb [.createPost 922337203685477 "p1" "img1" "late" "alice" "alice01" "Alice" "pic-a"]

/-- One post, created when the clock read 0. -/
def epochDb : SqliteStorage :=
  runOps emptyDb [.createPost 0 "p1" "img1" "early" "alice" "alice01" "Alice" "pic-a"]

/-! ## The invariant -/

theorem inv_emptyDb : Inv emptyDb := by
  refine ⟨?_, ?_, ?_, ?_, ?_⟩ <;> simp [emptyDb]

/-- An `UPDATE posts` that leaves `id` and `totalLikes` of every row alone keeps
the invariant. -/
theorem Inv.mapPosts {s : SqliteStorage} (h : Inv s) (f : PostRow → PostRow)
    (hid : ∀ p, (f p).id = p.id) (hlikes : ∀ p, (f p).totalLikes = p.totalLikes) :
    Inv ⟨s.posts.map f, s.likes⟩ := by
  refine ⟨?_, h.likeIds, h.likePairs, ?_, ?_⟩
  · have : (fun p => p.id) ∘ f = fun p : PostRow => p.id := funext hid
    simpa [List.map_map, this] using h.postIds
  · intro l hl
    obtain ⟨p, hp, hpl⟩ := h.likeRef l hl
    exact ⟨f p, List.mem_map_of_mem f hp, by rw [hid, hpl]⟩
  · intro q hq
    obtain ⟨p, hp, rfl⟩ := List.mem_map.1 hq
    rw [hid, hlikes]
    exact h.counter p hp

theorem inv_CreatePost {s : SqliteStorage} (h : Inv s) (now : Int)
    (id image body idUser username name profile : String) :
    Inv (CreatePost s now id image body idUser username name profile).db := by
  unfold CreatePost
  split_ifs with hex
  · exact h
  · refine ⟨?_, h.likeIds, h.likePairs, ?_, ?_⟩
    · simp only [List.map_append, List.map_cons, List.map_nil]
      refine List.Nodup.append h.postIds (List.nodup_singleton _) ?_
      intro a ha hb
      rw [List.mem_singleton] at hb
      subst hb
      obtain ⟨p, hp, hpid⟩ := List.mem_map.1 ha
      exact hex ⟨p, hp, hpid⟩
    · intro l hl
      obtain ⟨p, hp, hpl⟩ := h.likeRef l hl
      exact ⟨p, List.mem_append_left _ hp, hpl⟩
    · intro q hq
      rcases List.mem_append.1 hq with hq | hq
      · exact h.counter q hq
      · rw [List.mem_singleton] at hq
        subst hq
        have hz : likeCount s id = 0 := by
          unfold likeCount
          rw [List.countP_eq_zero]
          intro l hl
          simp only [decide_eq_true_eq]
          intro hlid
          obtain ⟨p, hp, hpl⟩ := h.likeRef l hl
          exact hex ⟨p, hp, hpl.trans hlid⟩
        show (0 : Int) = ((likeCount s id : Nat) : Int)
        rw [hz]
        rfl

theorem inv_CreateLike {s : SqliteStorage} (h : Inv s) (now : Int) (id userId postId : String) :
    Inv (CreateLike s now id userId postId).db := by
  unfold CreateLike
  split
  · exact h
  · rename_i row hrow
    have hmem : row ∈ s.posts.filter (fun p => decide (p.id = postId)) :=
      List.mem_of_mem_head? hrow
    rw [List.mem_filter] at hmem
    have hrowid : row.id = postId := by simpa using hmem.2
    simp only [reduceCtorEq, if_false]
    split_ifs with hc
    · exact h
    · rw [not_or] at hc
      refine ⟨?_, ?_, ?_, ?_, ?_⟩
      · have : (fun p : PostRow => p.id) ∘
            (fun p => if p.id = postId then { p with totalLikes := p.totalLikes + 1 } else p)
            = fun p : PostRow => p.id := by
          funext p
          simp only [Function.comp]
          split_ifs <;> rfl
        simpa [List.map_map, this] using h.postIds
      · simp only [List.map_append, List.map_cons, List.map_nil]
        refine List.Nodup.append h.likeIds (List.nodup_singleton _) ?_
        intro a ha hb
        rw [List.mem_singleton] at hb
        subst hb
        obtain ⟨l, hl, hlid⟩ := List.mem_map.1 ha
        exact hc.1 ⟨l, hl, hlid⟩
      · simp only [List.map_append, List.map_cons, List.map_nil]
        refine List.Nodup.append h.likePairs (List.nodup_singleton _) ?_
        intro a ha hb
        rw [List.mem_singleton] at hb
        subst hb
        obtain ⟨l, hl, hlp⟩ := List.mem_map.1 ha
        rw [Prod.mk.injEq] at hlp
        exact hc.2 ⟨l, hl, hlp⟩
      · intro l hl
        have key : ∀ q ∈ s.posts, ∃ p ∈ s.posts.map
            (fun p => if p.id = postId then { p with totalLikes := p.totalLikes + 1 } else p),
            p.id = q.id := by
          intro q hq
          refine ⟨_, List.mem_map_of_mem _ hq, ?_⟩
          split_ifs <;> rfl
        rcases List.mem_append.1 hl with hl | hl
        · obtain ⟨p, hp, hpl⟩ := h.likeRef l hl
          obtain ⟨p1, hp1, hp1id⟩ := key p hp
          exact ⟨p1, hp1, hp1id.trans hpl⟩
        · rw [List.mem_singleton] at hl
          subst hl
          obtain ⟨p1, hp1, hp1id⟩ := key row hmem.1
          exact ⟨p1, hp1, hp1id.trans hrowid⟩
      · intro q hq
        obtain ⟨p, hp, rfl⟩ := List.mem_map.1 hq
        have hcnt := h.counter p hp
        by_cases hpid : p.id = postId
        · simp only [hpid, if_true, likeCount, List.countP_append, List.countP_cons,
            List.countP_nil, decide_True]
          simp only [likeCount, hpid] at hcnt
          rw [hcnt]
          simp
        · have hne : ¬ postId = p.id := fun e => hpid e.symm
          simp only [hpid, if_false, likeCount, List.countP_append, List.countP_cons,
            List.countP_nil, hne, decide_False]
          simp only [likeCount] at hcnt
          rw [hcnt]
          simp

/-- In a list without two elements of the same key, exactly one element has
the key of a given member. -/
theorem countP_key_eq_one {α β : Type} [DecidableEq β] (f : α → β) :
    ∀ (l : List α), (l.map f).Nodup → ∀ x ∈ l, l.countP (fun y => decide (f y = f x)) = 1
  | [], _, x, hx => by simp at hx
  | a :: l, hn, x, hx => by
    rw [List.map_cons, List.nodup_cons] at hn
    rcases List.mem_cons.1 hx with rfl | hx
    · have hz : l.countP (fun y => decide (f y = f x)) = 0 := by
        rw [List.countP_eq_zero]
        intro y hy
        simp only [decide_eq_true_eq]
        intro hyx
        exact hn.1 (hyx ▸ List.mem_map_of_mem f hy)
      simp [List.countP_cons, hz]
    · have hne : f a ≠ f x := fun e => hn.1 (e ▸ List.mem_map_of_mem f hx)
      simp [List.countP_cons, hne, countP_key_eq_one f l hn.2 x hx]

/-- Under `UNIQUE(idPost, idUser)` exactly one row carries the pair of a row
that is in the table. -/
theorem countP_pair_eq_one {likes : List LikeRow}
    (hn : (likes.map (fun l => (l.idPost, l.idUser))).Nodup) {row : LikeRow}
    (hrow : row ∈ likes) :
    likes.countP (fun l => decide (l.idPost = row.idPost ∧ l.idUser = row.idUser)) = 1 := by
  rw [← countP_key_eq_one (fun l : LikeRow => (l.idPost, l.idUser)) likes hn row hrow]
  apply List.countP_congr
  intro l _
  simp only [decide_eq_true_eq, Prod.mk.injEq]

/-- Splitting a count along a `DELETE` whose condition implies the counted one. -/
theorem countP_split_filter {α : Type} (A M : α → Bool) (hMA : ∀ x, M x = true → A x = true) :
    ∀ l : List α, l.countP A = l.countP M + (l.filter (fun x => !M x)).countP A
  | [] => by simp
  | x :: l => by
    have ih := countP_split_filter A M hMA l
    cases hM : M x
    · cases hA : A x
      · simp [List.countP_cons, List.filter_cons, hM, hA, ih]
      · simp [List.countP_cons, List.filter_cons, hM, hA, ih]
        omega
    · have hA := hMA x hM
      simp [List.countP_cons, List.filter_cons, hM, hA, ih]
      omega

theorem inv_DeleteLike {s : SqliteStorage} (h : Inv s) (idPost idUser : String) :
    Inv (DeleteLike s idPost idUser).db := by
  unfold DeleteLike
  split
  · exact h
  · rename_i row hrow
    have hmem : row ∈ s.likes.filter (fun l => decide (l.idPost = idPost ∧ l.idUser = idUser)) :=
      List.mem_of_mem_head? hrow
    rw [List.mem_filter] at hmem
    have hrowP : row.idPost = idPost ∧ row.idUser = idUser := by simpa using hmem.2
    simp only [reduceCtorEq, if_false]
    have key : ∀ q ∈ s.posts, ∃ p ∈ s.posts.map
        (fun p => if p.id = idPost then { p with totalLikes := p.totalLikes - 1 } else p),
        p.id = q.id := by
      intro q hq
      refine ⟨_, List.mem_map_of_mem _ hq, ?_⟩
      split_ifs <;> rfl
    refine ⟨?_, ?_, ?_, ?_, ?_⟩
    · have : (fun p : PostRow => p.id) ∘
          (fun p => if p.id = idPost then { p with totalLikes := p.totalLikes - 1 } else p)
          = fun p : PostRow => p.id := by
        funext p
        simp only [Function.comp]
        split_ifs <;> rfl
      simpa [List.map_map, this] using h.postIds
    · exact h.likeIds.sublist ((List.filter_sublist _).map _)
    · exact h.likePairs.sublist ((List.filter_sublist _).map _)
    · intro l hl
      obtain ⟨p, hp, hpl⟩ := h.likeRef l (List.mem_of_mem_filter hl)
      obtain ⟨p1, hp1, hp1id⟩ := key p hp
      exact ⟨p1, hp1, hp1id.trans hpl⟩
    · intro q hq
      obtain ⟨p, hp, rfl⟩ := List.mem_map.1 hq
      have hcnt := h.counter p hp
      have hone := countP_pair_eq_one h.likePairs hmem.1
      rw [hrowP.1, hrowP.2] at hone
      by_cases hpid : p.id = idPost
      · have hsplit := countP_split_filter (fun l : LikeRow => decide (l.idPost = idPost))
          (fun l => decide (l.idPost = idPost ∧ l.idUser = idUser))
          (by intro x hx; simp only [decide_eq_true_eq] at hx ⊢; exact hx.1) s.likes
        rw [hone] at hsplit
        simp only [hpid, if_true, likeCount]
        simp only [likeCount, hpid] at hcnt
        have hfilt : (s.likes.filter (fun l => decide (¬ (l.idPost = idPost ∧ l.idUser = idUser))))
            = s.likes.filter (fun x => !decide (x.idPost = idPost ∧ x.idUser = idUser)) := by
          congr 1
          funext x
          simp
        rw [hfilt, hcnt, hsplit]
        push_cast
        ring
      · simp only [hpid, if_false, likeCount]
        simp only [likeCount] at hcnt
        rw [hcnt, List.countP_filter]
        congr 1
        apply List.countP_congr
        intro l _
        simp only [decide_eq_true_eq, Bool.and_eq_true, decide_not, Bool.not_eq_true',
          decide_eq_false_iff_not]
        constructor
        · intro hl
          exact ⟨hl, fun hm => hpid (hl.symm.trans hm.1)⟩
        · intro hl
          exact hl.1

theorem inv_call {s : SqliteStorage} (h : Inv s) (op : Op) : Inv (op.call s).db := by
  cases op with
  | createPost now id image body idUser username name profile => exact inv_CreatePost h ..
  | updatePostBody now id body userid =>
    exact h.mapPosts _ (fun p => by split_ifs <;> rfl) (fun p => by split_ifs <;> rfl)
  | deletePostById now id userId =>
    exact h.mapPosts _ (fun p => by split_ifs <;> rfl) (fun p => by split_ifs <;> rfl)
  | updateUserDetail now idUser profile name =>
    exact h.mapPosts _ (fun p => by split_ifs <;> rfl) (fun p => by split_ifs <;> rfl)
  | incrementTotalReplyById id =>
    exact h.mapPosts _ (fun p => by split_ifs <;> rfl) (fun p => by split_ifs <;> rfl)
  | decrementTotalReplyById id =>
    exact h.mapPosts _ (fun p => by split_ifs <;> rfl) (fun p => by split_ifs <;> rfl)
  | createLike now id userId postId => exact inv_CreateLike h ..
  | deleteLike idPost idUser => exact inv_DeleteLike h ..

theorem inv_runOps (ops : List Op) : ∀ {s : SqliteStorage}, Inv s → Inv (runOps s ops) := by
  induction ops with
  | nil => intro s h; exact h
  | cons op ops ih => intro s h; exact ih (inv_call h op)

theorem Reachable.inv {s : SqliteStorage} (h : Reachable s) : Inv s := by
  obtain ⟨ops, rfl⟩ := h
  exact inv_runOps ops inv_emptyDb

theorem runOps_append (s : SqliteStorage) (ops1 ops2 : List Op) :
    runOps s (ops1 ++ ops2) = runOps (runOps s ops1) ops2 := by
  simp [runOps, List.foldl_append]

theorem Reachable.runOps {s : SqliteStorage} (h : Reachable s) (ops : List Op) :
    Reachable (runOps s ops) := by
  obtain ⟨ops0, rfl⟩ := h
  exact ⟨ops0 ++ ops, runOps_append _ _ _⟩

/-! ## Like management: error paths -/

theorem sampleDb_reachable : Reachable sampleDb := ⟨sampleOps, rfl⟩

/-- C2: in a store state that already holds a like row for the pair
(postId, userId), `CreateLike` with any like id returns the constraint
failure of the `INSERT` (the Conflict error) and leaves both tables as they
were: no like row is added and no `totalLikes` changes. -/
theorem CreateLike_existing_pair (s : SqliteStorage) (hs : Reachable s) (now : Int)
    (id userId postId : String)
    (hex : ∃ l ∈ s.likes, l.idPost = postId ∧ l.idUser = userId) :
    CreateLike s now id userId postId = ⟨s, some Error.ErrConstraint⟩ := by
  obtain ⟨l, hl, hlp⟩ := hex
  obtain ⟨p, hp, hpid⟩ := hs.inv.likeRef l hl
  have hmem : p ∈ s.posts.filter (fun p => decide (p.id = postId)) := by
    rw [List.mem_filter]
    exact ⟨hp, by simpa using hpid.trans hlp.1⟩
  unfold CreateLike
  split
  · rename_i hnone
    rw [List.head?_eq_none_iff] at hnone
    rw [hnone] at hmem
    simp at hmem
  · simp only [reduceCtorEq, if_false]
    rw [if_pos (Or.inr ⟨l, hl, hlp⟩)]

theorem CreateLike_existing_pair_witness :
    (∃ l ∈ sampleDb.likes, l.idPost = "p1" ∧ l.idUser = "bob") ∧
    CreateLike sampleDb 300 "l9" "bob" "p1" = ⟨sampleDb, some Error.ErrConstraint⟩ :=
  ⟨by decide, CreateLike_existing_pair sampleDb sampleDb_reachable 300 "l9" "bob" "p1" (by decide)⟩

/-- C3: in any state of the tables without a like row for the pair
(idPost, idUser), `DeleteLike` returns `sql.ErrNoRows` (the NotFound error) and
leaves both tables as they were: no like row is removed and no `totalLikes`
changes. -/
theorem DeleteLike_missing_pair (s : SqliteStorage) (idPost idUser : String)
    (hno : ¬ ∃ l ∈ s.likes, l.idPost = idPost ∧ l.idUser = idUser) :
    DeleteLike s idPost idUser = ⟨s, some Error.ErrNoRows⟩ := by
  have hnil : s.likes.filter (fun l => decide (l.idPost = idPost ∧ l.idUser = idUser)) = [] := by
    rw [List.filter_eq_nil_iff]
    intro l hl hdec
    exact hno ⟨l, hl, by simpa using hdec⟩
  unfold DeleteLike
  rw [hnil]
  rfl

theorem DeleteLike_missing_pair_witness :
    (¬ ∃ l ∈ sampleDb.likes, l.idPost = "p1" ∧ l.idUser = "carol") ∧
    DeleteLike sampleDb "p1" "carol" = ⟨sampleDb, some Error.ErrNoRows⟩ :=
  ⟨by decide, DeleteLike_missing_pair sampleDb "p1" "carol" (by decide)⟩

/-- C4: in any state of the tables without a post row whose id is postId,
`CreateLike` returns `sql.ErrNoRows` (the NotFound error) and leaves the
`likes` table and the `posts` table as they were. -/
theorem CreateLike_missing_post (s : SqliteStorage) (now : Int) (id userId postId : String)
    (hno : ¬ ∃ p ∈ s.posts, p.id = postId) :
    CreateLike s now id userId postId = ⟨s, some Error.ErrNoRows⟩ := by
  have hnil : s.posts.filter (fun p => decide (p.id = postId)) = [] := by
    rw [List.filter_eq_nil_iff]
    intro p hp hdec
    exact hno ⟨p, hp, by simpa using hdec⟩
  unfold CreateLike
  rw [hnil]
  rfl

theorem CreateLike_missing_post_witness :
    (¬ ∃ p ∈ sampleDb.posts, p.id = "p7") ∧
    CreateLike sampleDb 300 "l9" "bob" "p7" = ⟨sampleDb, some Error.ErrNoRows⟩ :=
  ⟨by decide, CreateLike_missing_post sampleDb 300 "l9" "bob" "p7" (by decide)⟩

/-! ## Post mutation -/

/-- C8: when no live post has both the given id and the given author (wrong
author, soft-deleted, or unknown id), `UpdatePostBody` returns `nil` and the
tables, hence `body` and `updatedAt` of every post, are as they were. -/
theorem UpdatePostBody_no_match (s : SqliteStorage) (now : Int) (id body userid : String)
    (hno : ¬ ∃ p ∈ s.posts, p.id = id ∧ p.idUser = userid ∧ p.deletedAt = none) :
    UpdatePostBody s now id body userid = ⟨s, none⟩ := by
  have hmap : s.posts.map (fun p =>
      if p.id = id ∧ p.idUser = userid ∧ p.deletedAt = none then
        { p with body := body, updatedAt := now }
      else p) = s.posts := by
    conv_rhs => rw [← List.map_id s.posts]
    apply List.map_congr_left
    intro p hp
    rw [if_neg (fun hc => hno ⟨p, hp, hc⟩)]
    rfl
  unfold UpdatePostBody
  rw [hmap]

theorem UpdatePostBody_no_match_witness :
    (¬ ∃ p ∈ sampleDb.posts, p.id = "p1" ∧ p.idUser = "bob" ∧ p.deletedAt = none) ∧
    UpdatePostBody sampleDb 300 "p1" "edited" "bob" = ⟨sampleDb, none⟩ :=
  ⟨by decide, UpdatePostBody_no_match sampleDb 300 "p1" "edited" "bob" (by decide)⟩

/-- No call removes a post row or changes its `id`. -/
theorem call_keeps_post_id (s : SqliteStorage) (op : Op) (id : String)
    (h : ∃ p ∈ s.posts, p.id = id) : ∃ p ∈ (op.call s).db.posts, p.id = id := by
  obtain ⟨p, hp, hpid⟩ := h
  have hmap : ∀ f : PostRow → PostRow, (∀ q, (f q).id = q.id) →
      ∃ q ∈ s.posts.map f, q.id = id :=
    fun f hf => ⟨f p, List.mem_map_of_mem f hp, (hf p).trans hpid⟩
  cases op with
  | createPost now id1 image body idUser username name profile =>
    show ∃ q ∈ (CreatePost s now id1 image body idUser username name profile).db.posts, q.id = id
    unfold CreatePost
    split_ifs
    · exact ⟨p, hp, hpid⟩
    · exact ⟨p, List.mem_append_left _ hp, hpid⟩
  | updatePostBody now id1 body userid => exact hmap _ (fun q => by split_ifs <;> rfl)
  | deletePostById now id1 userId => exact hmap _ (fun q => by split_ifs <;> rfl)
  | updateUserDetail now idUser profile name => exact hmap _ (fun q => by split_ifs <;> rfl)
  | incrementTotalReplyById id1 => exact hmap _ (fun q => by split_ifs <;> rfl)
  | decrementTotalReplyById id1 => exact hmap _ (fun q => by split_ifs <;> rfl)
  | createLike now id1 userId postId =>
    show ∃ q ∈ (CreateLike s now id1 userId postId).db.posts, q.id = id
    unfold CreateLike
    split
    · exact ⟨p, hp, hpid⟩
    · simp only [reduceCtorEq, if_false]
      split_ifs
      · exact ⟨p, hp, hpid⟩
      · exact hmap _ (fun q => by split_ifs <;> rfl)
  | deleteLike idPost idUser =>
    show ∃ q ∈ (DeleteLike s idPost idUser).db.posts, q.id = id
    unfold DeleteLike
    split
    · exact ⟨p, hp, hpid⟩
    · simp only [reduceCtorEq, if_false]
      exact hmap _ (fun q => by split_ifs <;> rfl)

theorem runOps_keeps_post_id (ops : List Op) (id : String) :
    ∀ s : SqliteStorage, (∃ p ∈ s.posts, p.id = id) → ∃ p ∈ (runOps s ops).posts, p.id = id := by
  induction ops with
  | nil => intro s h; exact h
  | cons op ops ih => intro s h; exact ih _ (call_keeps_post_id s op id h)

/-! ## The like counter -/

/-- C1: take a store state, create a post with `CreatePost` (its `totalLikes`
is 0), then make any finite sequence of `CreateLike` and `DeleteLike` calls
with arbitrary arguments.  After each call (after the first `k` calls, for
every `k`), whether the calls succeeded or failed, the post is in `posts` and
its `totalLikes` is the number of rows of `likes` whose `idPost` is its id. -/
theorem totalLikes_eq_likeCount (s : SqliteStorage) (hs : Reachable s) (now : Int)
    (id image body idUser username name profile : String)
    (hcreated : (CreatePost s now id image body idUser username name profile).err = none)
    (calls : List LikeCall) (k : Nat) :
    (∃ p ∈ (CreatePost s now id image body idUser username name profile).db.posts,
      p.id = id ∧ p.totalLikes = 0) ∧
    (∃ p ∈ (runLikeCalls (CreatePost s now id image body idUser username name profile).db
      (calls.take k)).posts, p.id = id) ∧
    ∀ p ∈ (runLikeCalls (CreatePost s now id image body idUser username name profile).db
      (calls.take k)).posts, p.id = id →
      p.totalLikes = (likeCount (runLikeCalls (CreatePost s now id image body idUser username
        name profile).db (calls.take k)) id : Int) := by
  have hnew : ∃ p ∈ (CreatePost s now id image body idUser username name profile).db.posts,
      p.id = id ∧ p.totalLikes = 0 := by
    by_cases hex : ∃ p ∈ s.posts, p.id = id
    · simp [CreatePost, hex] at hcreated
    · simp only [CreatePost, if_neg hex]
      exact ⟨_, List.mem_append_right _ (List.mem_singleton_self _), rfl, rfl⟩
  have hreach : Reachable (runLikeCalls (CreatePost s now id image body idUser username name
      profile).db (calls.take k)) :=
    (hs.runOps [Op.createPost now id image body idUser username name profile]).runOps _
  refine ⟨hnew, ?_, ?_⟩
  · obtain ⟨p, hp, hpid, _⟩ := hnew
    exact runOps_keeps_post_id _ id _ ⟨p, hp, hpid⟩
  · intro p hp hpid
    have := hreach.inv.counter p hp
    rw [hpid] at this
    exact this

theorem totalLikes_eq_likeCount_witness :
    (CreatePost sampleDb 300 "p3" "img3" "third" "bob" "bob02" "Bob" "pic-b").err = none ∧
    (∃ p ∈ (runLikeCalls (CreatePost sampleDb 300 "p3" "img3" "third" "bob" "bob02" "Bob"
        "pic-b").db
      ([LikeCall.create 310 "l4" "alice" "p3", LikeCall.create 320 "l5" "alice" "p3",
        LikeCall.create 330 "l6" "carol" "p3", LikeCall.delete "p3" "dave",
        LikeCall.delete "p3" "alice"].take 3)).posts, p.id = "p3") ∧
    ∀ p ∈ (runLikeCalls (CreatePost sampleDb 300 "p3" "img3" "third" "bob" "bob02" "Bob"
        "pic-b").db
      ([LikeCall.create 310 "l4" "alice" "p3", LikeCall.create 320 "l5" "alice" "p3",
        LikeCall.create 330 "l6" "carol" "p3", LikeCall.delete "p3" "dave",
        LikeCall.delete "p3" "alice"].take 3)).posts, p.id = "p3" →
      p.totalLikes = (likeCount (runLikeCalls (CreatePost sampleDb 300 "p3" "img3" "third" "bob"
        "bob02" "Bob" "pic-b").db
        ([LikeCall.create 310 "l4" "alice" "p3", LikeCall.create 320 "l5" "alice" "p3",
          LikeCall.create 330 "l6" "carol" "p3", LikeCall.delete "p3" "dave",
          LikeCall.delete "p3" "alice"].take 3)) "p3" : Int) :=
  ⟨by decide,
   (totalLikes_eq_likeCount sampleDb sampleDb_reachable 300 "p3" "img3" "third" "bob" "bob02"
      "Bob" "pic-b" (by decide) _ 3).2⟩

/-! ## The join -/

theorem mem_leftJoinLikes {s : SqliteStorage} {viewer : String}
    {r : PostRow × Option LikeRow} :
    r ∈ leftJoinLikes s viewer ↔
      r.1 ∈ s.posts ∧
      ((r.2 = none ∧ ¬ ∃ l ∈ s.likes, l.idPost = r.1.id ∧ l.idUser = viewer) ∨
       (∃ l ∈ s.likes, (l.idPost = r.1.id ∧ l.idUser = viewer) ∧ r.2 = some l)) := by
  obtain ⟨p, o⟩ := r
  unfold leftJoinLikes
  rw [List.mem_flatMap]
  constructor
  · rintro ⟨q, hq, hr⟩
    split at hr
    · rename_i hnil
      rw [List.mem_singleton, Prod.mk.injEq] at hr
      obtain ⟨rfl, rfl⟩ := hr
      refine ⟨hq, Or.inl ⟨rfl, ?_⟩⟩
      rintro ⟨l, hl, hlp, hlu⟩
      have : l ∈ s.likes.filter (fun l => decide (p.id = l.idPost ∧ l.idUser = viewer)) := by
        rw [List.mem_filter]
        exact ⟨hl, by simpa using ⟨hlp.symm, hlu⟩⟩
      rw [hnil] at this
      simp at this
    · rename_i l ls hcons
      obtain ⟨m, hm, hmr⟩ := List.mem_map.1 hr
      rw [Prod.mk.injEq] at hmr
      obtain ⟨rfl, rfl⟩ := hmr
      rw [← hcons, List.mem_filter] at hm
      have hm2 : q.id = m.idPost ∧ m.idUser = viewer := by simpa using hm.2
      exact ⟨hq, Or.inr ⟨m, hm.1, ⟨hm2.1.symm, hm2.2⟩, rfl⟩⟩
  · rintro ⟨hp, h⟩
    refine ⟨p, hp, ?_⟩
    rcases h with ⟨ho, hno⟩ | ⟨l, hl, hlp, ho⟩
    · simp only at ho
      subst ho
      have hnil : s.likes.filter (fun l => decide (p.id = l.idPost ∧ l.idUser = viewer)) = [] := by
        rw [List.filter_eq_nil_iff]
        intro l hl hdec
        have hd : p.id = l.idPost ∧ l.idUser = viewer := by simpa using hdec
        exact hno ⟨l, hl, hd.1.symm, hd.2⟩
      rw [hnil]
      exact List.mem_singleton_self _
    · simp only at ho hlp
      subst ho
      have hmem : l ∈ s.likes.filter (fun l => decide (p.id = l.idPost ∧ l.idUser = viewer)) := by
        rw [List.mem_filter]
        exact ⟨hl, by simpa using ⟨hlp.1.symm, hlp.2⟩⟩
      split
      · rename_i hnil
        rw [hnil] at hmem
        simp at hmem
      · rename_i l0 ls hcons
        rw [← hcons]
        exact List.mem_map_of_mem _ hmem

/-- The flag `isLiked` of a joined row says whether the viewer has a like row
on the post. -/
theorem scanPost_ISLiked_iff {s : SqliteStorage} {viewer : String}
    {r : PostRow × Option LikeRow} (hr : r ∈ leftJoinLikes s viewer) :
    (scanPost r).ISLiked = true ↔ ∃ l ∈ s.likes, l.idPost = (scanPost r).Id ∧ l.idUser = viewer := by
  obtain ⟨p, o⟩ := r
  rcases (mem_leftJoinLikes.1 hr).2 with ⟨ho, hno⟩ | ⟨l, hl, hlp, ho⟩
  · simp only at ho hno
    subst ho
    simp only [scanPost, Bool.false_eq_true, false_iff]
    exact hno
  · simp only at ho hlp
    subst ho
    simp only [scanPost, true_iff]
    exact ⟨l, hl, hlp⟩

/-- Under `UNIQUE(idPost, idUser)` at most one like row of the viewer matches a
post. -/
theorem likes_of_viewer_le_one {s : SqliteStorage} (h : Inv s) (viewer : String) (p : PostRow)
    (l : LikeRow) (ls : List LikeRow)
    (hf : s.likes.filter (fun l => decide (p.id = l.idPost ∧ l.idUser = viewer)) = l :: ls) :
    ls = [] := by
  have hl : l ∈ s.likes.filter (fun l => decide (p.id = l.idPost ∧ l.idUser = viewer)) := by
    rw [hf]
    exact List.mem_cons_self _ _
  rw [List.mem_filter] at hl
  have hl2 : p.id = l.idPost ∧ l.idUser = viewer := by simpa using hl.2
  have hone := countP_pair_eq_one h.likePairs hl.1
  have hlen : (s.likes.filter (fun l => decide (p.id = l.idPost ∧ l.idUser = viewer))).length = 1 := by
    rw [← List.countP_eq_length_filter, ← hone]
    apply List.countP_congr
    intro x _
    simp only [decide_eq_true_eq]
    rw [← hl2.1, hl2.2]
    exact ⟨fun hx => ⟨hx.1.symm, hx.2⟩, fun hx => ⟨hx.1.symm, hx.2⟩⟩
  rw [hf] at hlen
  simpa using hlen

theorem flatMap_eq_map_of_singleton {α β : Type} (F : α → List β) (G : α → β)
    (hFG : ∀ a, F a = [G a]) : ∀ l : List α, l.flatMap F = l.map G
  | [] => rfl
  | a :: l => by
    rw [List.flatMap_cons, List.map_cons, hFG a, flatMap_eq_map_of_singleton F G hFG l]
    rfl

/-- In a store state the join yields exactly one row per post. -/
theorem leftJoinLikes_eq_map {s : SqliteStorage} (h : Inv s) (viewer : String) :
    leftJoinLikes s viewer = s.posts.map (joinRow s viewer) := by
  unfold leftJoinLikes
  apply flatMap_eq_map_of_singleton
  intro p
  unfold joinRow
  split
  · rename_i hnil
    rw [hnil]
    rfl
  · rename_i l ls hcons
    have hls := likes_of_viewer_le_one h viewer p l ls hcons
    subst hls
    rw [hcons]
    rfl

theorem sqlLimit_sublist {α : Type} (limit : Int) (rows : List α) :
    (sqlLimit limit rows).Sublist rows := by
  unfold sqlLimit
  split_ifs
  · exact List.Sublist.refl _
  · exact List.take_sublist _ _

theorem orderByCreatedAtDesc_perm (rows : List (PostRow × Option LikeRow)) :
    (orderByCreatedAtDesc rows).Perm rows :=
  List.perm_insertionSort _ _

theorem mem_listPostRows {s : SqliteStorage} {viewer : String} {cursor limit : Int}
    {r : PostRow × Option LikeRow} (hr : r ∈ listPostRows s viewer cursor limit) :
    r ∈ leftJoinLikes s viewer ∧ r.1.deletedAt = none ∧ r.1.createdAt < cursorOrStart cursor := by
  have h1 := (sqlLimit_sublist _ _).subset hr
  have h2 := (orderByCreatedAtDesc_perm _).subset h1
  rw [List.mem_filter] at h2
  exact ⟨h2.1, by simpa using h2.2⟩

/-! ## Viewer-relative like state -/

/-- C9: in every store state and for every viewer `v`, each post returned by
`ListPost(v, cursor, limit)` or by `GetPostById(v, id)` has `ISLiked = true`
exactly when a like row (that post id, `v`) exists, and no post id occurs
twice in a `ListPost` result, whoever else has liked the post. -/
theorem ISLiked_iff_viewer_like (s : SqliteStorage) (hs : Reachable s) (v : String)
    (cursor limit : Int) (id : String) :
    (∀ r ∈ ListPost s v cursor limit,
      (r.ISLiked = true ↔ ∃ l ∈ s.likes, l.idPost = r.Id ∧ l.idUser = v)) ∧
    (∀ r, GetPostById s v id = Except.ok r →
      (r.ISLiked = true ↔ ∃ l ∈ s.likes, l.idPost = r.Id ∧ l.idUser = v)) ∧
    ((ListPost s v cursor limit).map (fun r => r.Id)).Nodup := by
  refine ⟨?_, ?_, ?_⟩
  · intro r hr
    obtain ⟨row, hrow, rfl⟩ := List.mem_map.1 hr
    exact scanPost_ISLiked_iff (mem_listPostRows hrow).1
  · intro r hr
    unfold GetPostById at hr
    split at hr
    · simp at hr
    · rename_i row hrow
      have hmem := List.mem_of_mem_filter (List.mem_of_mem_head? hrow)
      have hrr : r = scanPost row := by
        injection hr with hr
        exact hr.symm
      rw [hrr]
      exact scanPost_ISLiked_iff hmem
  · have hinv := hs.inv
    have hmap : (ListPost s v cursor limit).map (fun r => r.Id)
        = (listPostRows s v cursor limit).map (fun r => r.1.id) := by
      unfold ListPost
      rw [List.map_map]
      rfl
    rw [hmap]
    have hjoin : ((leftJoinLikes s v).map (fun r => r.1.id)).Nodup := by
      rw [leftJoinLikes_eq_map hinv, List.map_map]
      exact hinv.postIds
    have hsub : ((leftJoinLikes s v).filter (fun r =>
        decide (r.1.deletedAt = none ∧ r.1.createdAt < cursorOrStart cursor))).Sublist
        (leftJoinLikes s v) := List.filter_sublist _
    have hfilt := hjoin.sublist (hsub.map (fun r => r.1.id))
    have hsort := (((orderByCreatedAtDesc_perm _).map (fun r => r.1.id)).nodup_iff).2 hfilt
    exact hsort.sublist ((sqlLimit_sublist _ _).map _)

theorem ISLiked_iff_viewer_like_witness :
    (∀ r ∈ ListPost sampleDb "bob" 0 10,
      (r.ISLiked = true ↔ ∃ l ∈ sampleDb.likes, l.idPost = r.Id ∧ l.idUser = "bob")) ∧
    (∀ r, GetPostById sampleDb "bob" "p1" = Except.ok r →
      (r.ISLiked = true ↔ ∃ l ∈ sampleDb.likes, l.idPost = r.Id ∧ l.idUser = "bob")) ∧
    ((ListPost sampleDb "bob" 0 10).map (fun r => r.Id)).Nodup :=
  ISLiked_iff_viewer_like sampleDb sampleDb_reachable "bob" 0 10 "p1"

/-! ## Soft delete -/

/-- C6: for a live post `p` with id `i` and author `a` in a store state,
`DeletePostById(i, a)` returns `nil`; afterwards `GetPostById(viewerId, i)`
returns `sql.ErrNoRows` (the NotFound error) for every viewer, and the row is
still in `posts`, unchanged except that `deletedAt` is now the non-null
clock reading. -/
theorem GetPostById_after_DeletePostById (s : SqliteStorage) (hs : Reachable s) (now : Int)
    (i a : String) (p : PostRow) (hp : p ∈ s.posts) (hid : p.id = i) (ha : p.idUser = a)
    (hlive : p.deletedAt = none) :
    (DeletePostById s now i a).err = none ∧
    (∀ viewerId : String,
      GetPostById (DeletePostById s now i a).db viewerId i = Except.error Error.ErrNoRows) ∧
    { p with deletedAt := some now } ∈ (DeletePostById s now i a).db.posts := by
  have hrow : { p with deletedAt := some now } ∈ (DeletePostById s now i a).db.posts := by
    unfold DeletePostById
    refine List.mem_map.2 ⟨p, hp, ?_⟩
    rw [if_pos ⟨hid, ha, hlive⟩]
  refine ⟨rfl, ?_, hrow⟩
  intro viewerId
  have hnil : (leftJoinLikes (DeletePostById s now i a).db viewerId).filter
      (fun r => decide (r.1.id = i ∧ r.1.deletedAt = none)) = [] := by
    rw [List.filter_eq_nil_iff]
    intro r hr hdec
    have hd : r.1.id = i ∧ r.1.deletedAt = none := by simpa using hdec
    have hr1 := (mem_leftJoinLikes.1 hr).1
    have hinv : Inv (DeletePostById s now i a).db :=
      (hs.runOps [Op.deletePostById now i a]).inv
    have heq := List.inj_on_of_nodup_map hinv.postIds hr1 hrow (hd.1.trans hid.symm)
    rw [heq] at hd
    simp at hd
  unfold GetPostById
  rw [hnil]
  rfl

theorem GetPostById_after_DeletePostById_witness :
    (DeletePostById sampleDb 300 "p1" "alice").err = none ∧
    (∀ viewerId : String,
      GetPostById (DeletePostById sampleDb 300 "p1" "alice").db viewerId "p1"
        = Except.error Error.ErrNoRows) ∧
    (⟨"p1", "img1", "first", "alice", "alice01", "Alice", "pic-a", 1, 0, 100, 100, some 300⟩ :
      PostRow) ∈ (DeletePostById sampleDb 300 "p1" "alice").db.posts :=
  GetPostById_after_DeletePostById sampleDb sampleDb_reachable 300 "p1" "alice"
    ⟨"p1", "img1", "first", "alice", "alice01", "Alice", "pic-a", 1, 0, 100, 100, none⟩
    (by decide) rfl rfl rfl

/-! ## The shape of a feed page -/

theorem sqlLimit_map {α β : Type} (f : α → β) (limit : Int) (rows : List α) :
    sqlLimit limit (rows.map f) = (sqlLimit limit rows).map f := by
  unfold sqlLimit
  split_ifs
  · rfl
  · rw [List.map_take]

theorem scanPost_joinRow (s : SqliteStorage) (viewer : String) (p : PostRow) :
    scanPost (joinRow s viewer p)
      = postWithFlag p (decide (∃ l ∈ s.likes, l.idPost = p.id ∧ l.idUser = viewer)) := by
  unfold scanPost joinRow postWithFlag
  cases hh : (s.likes.filter (fun l => decide (p.id = l.idPost ∧ l.idUser = viewer))).head? with
  | none =>
    rw [List.head?_eq_none_iff, List.filter_eq_nil_iff] at hh
    have hno : ¬ ∃ l ∈ s.likes, l.idPost = p.id ∧ l.idUser = viewer := by
      rintro ⟨l, hl, hlp, hlu⟩
      exact hh l hl (by simpa using ⟨hlp.symm, hlu⟩)
    simp only [hno, decide_False]
  | some l =>
    have hl := List.mem_of_mem_head? hh
    rw [List.mem_filter] at hl
    have hl2 : p.id = l.idPost ∧ l.idUser = viewer := by simpa using hl.2
    have hex : ∃ l ∈ s.likes, l.idPost = p.id ∧ l.idUser = viewer := ⟨l, hl.1, hl2.1.symm, hl2.2⟩
    simp only [hex, decide_True]

/-- In a store state, a query `SELECT .. FROM posts p LEFT JOIN likes l ON ..
WHERE W(p) ORDER BY p.createdAt DESC LIMIT ?` scans the first rows of the
selected posts, newest first, each with the flag of the viewer. -/
theorem feed_eq {s : SqliteStorage} (h : Inv s) (viewer : String) (W : PostRow → Bool)
    (limit : Int) :
    (sqlLimit limit (orderByCreatedAtDesc
        ((leftJoinLikes s viewer).filter (fun r => W r.1)))).map scanPost
      = (sqlLimit limit ((s.posts.filter W).insertionSort newestFirst)).map
          (fun p => postWithFlag p (decide (∃ l ∈ s.likes, l.idPost = p.id ∧ l.idUser = viewer))) := by
  have h1 : (leftJoinLikes s viewer).filter (fun r => W r.1)
      = (s.posts.filter W).map (joinRow s viewer) := by
    rw [leftJoinLikes_eq_map h, List.filter_map]
    rfl
  have h2 : orderByCreatedAtDesc ((s.posts.filter W).map (joinRow s viewer))
      = ((s.posts.filter W).insertionSort newestFirst).map (joinRow s viewer) := by
    unfold orderByCreatedAtDesc
    exact (List.map_insertionSort newestFirst
      (fun a b : PostRow × Option LikeRow => a.1.createdAt ≥ b.1.createdAt)
      (joinRow s viewer) (s.posts.filter W) (fun a _ b _ => Iff.rfl)).symm
  rw [h1, h2, sqlLimit_map, List.map_map]
  apply List.map_congr_left
  intro p _
  exact scanPost_joinRow s viewer p

/-! ## Listing by author -/

/-- C10: in every store state `ListPostByUser(cursor, userId, limit)` returns
the live posts authored by `userId` whose `createdAt` is below the cursor,
newest first and at most `limit` of them, whether or not anyone has liked
them: the selection does not mention the `likes` table.  The cursor is read as
the query reads it (`cursorOrStart`): cursor 0 is the start sentinel and stands
for 922337203685477, any other cursor is the exclusive upper bound itself.
For a page size `0 ≤ limit` the result is the first `limit` of these posts; a
negative `limit` lifts the bound of `LIMIT ?` and gives all of them.  The
method takes no separate viewer id, so `ISLiked` of each returned post is true
exactly when the author `userId` has a like row on it. -/
theorem ListPostByUser_eq (s : SqliteStorage) (hs : Reachable s) (cursor : Int)
    (userId : String) (limit : Int) :
    ∃ ps : List PostRow,
      ps.Perm (s.posts.filter (fun p => decide (p.idUser = userId ∧ p.deletedAt = none ∧
        p.createdAt < cursorOrStart cursor))) ∧
      ps.Sorted newestFirst ∧
      (0 ≤ limit → ListPostByUser s cursor userId limit = (ps.take limit.toNat).map
        (fun p => postWithFlag p (decide (∃ l ∈ s.likes, l.idPost = p.id ∧ l.idUser = userId)))) ∧
      (limit < 0 → ListPostByUser s cursor userId limit = ps.map
        (fun p => postWithFlag p (decide (∃ l ∈ s.likes, l.idPost = p.id ∧ l.idUser = userId)))) ∧
      (0 ≤ limit → ((ListPostByUser s cursor userId limit).length : Int) ≤ limit) := by
  have heq := feed_eq hs.inv userId (fun p => decide (p.idUser = userId ∧ p.deletedAt = none ∧
    p.createdAt < cursorOrStart cursor)) limit
  have hR : ListPostByUser s cursor userId limit
      = (sqlLimit limit ((s.posts.filter (fun p => decide (p.idUser = userId ∧
          p.deletedAt = none ∧ p.createdAt < cursorOrStart cursor))).insertionSort
          newestFirst)).map
        (fun p => postWithFlag p (decide (∃ l ∈ s.likes, l.idPost = p.id ∧ l.idUser = userId))) :=
    heq
  refine ⟨_, List.perm_insertionSort newestFirst _, List.sorted_insertionSort newestFirst _,
    ?_, ?_, ?_⟩
  · intro hl
    rw [hR, sqlLimit, if_neg (not_lt.2 hl)]
  · intro hl
    rw [hR, sqlLimit, if_pos hl]
  · intro hl
    rw [hR, sqlLimit, if_neg (not_lt.2 hl), List.length_map, List.length_take]
    have : ((limit.toNat : Nat) : Int) = limit := Int.toNat_of_nonneg hl
    omega

theorem ListPostByUser_eq_witness :
    ∃ ps : List PostRow,
      ps.Perm (sampleDb.posts.filter (fun p => decide (p.idUser = "alice" ∧ p.deletedAt = none ∧
        p.createdAt < cursorOrStart 0))) ∧
      ps.Sorted newestFirst ∧
      ((0 : Int) ≤ 1 → ListPostByUser sampleDb 0 "alice" 1 = (ps.take (1 : Int).toNat).map
        (fun p => postWithFlag p
          (decide (∃ l ∈ sampleDb.likes, l.idPost = p.id ∧ l.idUser = "alice")))) ∧
      ((1 : Int) < 0 → ListPostByUser sampleDb 0 "alice" 1 = ps.map
        (fun p => postWithFlag p
          (decide (∃ l ∈ sampleDb.likes, l.idPost = p.id ∧ l.idUser = "alice")))) ∧
      ((0 : Int) ≤ 1 → ((ListPostByUser sampleDb 0 "alice" 1).length : Int) ≤ 1) :=
  ListPostByUser_eq sampleDb sampleDb_reachable 0 "alice" 1

/-! ## Listing the posts a user likes -/

/-- Every post returned by `ListLikedByUser` is flagged and is a live post on
which the user has a like row; this needs no assumption on the tables. -/
theorem ListLikedByUser_sound (s : SqliteStorage) (u : String) (cursor limit : Int) :
    ∀ r ∈ ListLikedByUser s cursor u limit, r.ISLiked = true ∧
      ∃ p ∈ s.posts, p.id = r.Id ∧ p.deletedAt = none ∧
        ∃ l ∈ s.likes, l.idPost = p.id ∧ l.idUser = u := by
  intro r hr
  obtain ⟨row, hrow, rfl⟩ := List.mem_map.1 hr
  have h1 := (sqlLimit_sublist _ _).subset hrow
  have h2 := (orderByCreatedAtDesc_perm _).subset h1
  rw [List.mem_filter] at h2
  obtain ⟨hjoin, hwhere⟩ := h2
  have hw : (∃ l, row.2 = some l ∧ l.idUser = u) ∧ row.1.deletedAt = none ∧
      row.1.createdAt < cursorOrStart cursor := by simpa using hwhere
  obtain ⟨⟨l, hl, _⟩, hlive, _⟩ := hw
  obtain ⟨hp, hlike⟩ := mem_leftJoinLikes.1 hjoin
  rcases hlike with ⟨hnone, _⟩ | ⟨m, hm, hmp, _⟩
  · rw [hl] at hnone
    simp at hnone
  · refine ⟨?_, row.1, hp, rfl, hlive, m, hm, hmp⟩
    obtain ⟨p, o⟩ := row
    simp only at hl
    subst hl
    rfl

/-- After a successful `DeleteLike(P, u)` no like row (P, u) is left. -/
theorem DeleteLike_ok_likes (s : SqliteStorage) (P u : String)
    (hok : (DeleteLike s P u).err = none) :
    ¬ ∃ l ∈ (DeleteLike s P u).db.likes, l.idPost = P ∧ l.idUser = u := by
  unfold DeleteLike at hok ⊢
  split at hok
  · simp at hok
  · simp only [reduceCtorEq, if_false]
    rintro ⟨l, hl, hlp⟩
    rw [List.mem_filter] at hl
    have := hl.2
    simp only [decide_eq_true_eq] at this
    exact this hlp

/-- The `WHERE` clause of `ListLikedByUser` on the joined row of a post. -/
theorem liked_where_joinRow (s : SqliteStorage) (u : String) (c : Int) (p : PostRow) :
    decide ((∃ l, (joinRow s u p).2 = some l ∧ l.idUser = u) ∧ (joinRow s u p).1.deletedAt = none ∧
        (joinRow s u p).1.createdAt < c)
      = decide (p.deletedAt = none ∧ p.createdAt < c ∧
          ∃ l ∈ s.likes, l.idPost = p.id ∧ l.idUser = u) := by
  apply decide_eq_decide.2
  have hiff : (∃ l, (joinRow s u p).2 = some l ∧ l.idUser = u)
      ↔ ∃ l ∈ s.likes, l.idPost = p.id ∧ l.idUser = u := by
    unfold joinRow
    constructor
    · rintro ⟨l, hl, hlu⟩
      have hmem := List.mem_of_mem_head? hl
      rw [List.mem_filter] at hmem
      have h2 : p.id = l.idPost ∧ l.idUser = u := by simpa using hmem.2
      exact ⟨l, hmem.1, h2.1.symm, h2.2⟩
    · rintro ⟨l, hl, hlp, hlu⟩
      have hmem : l ∈ s.likes.filter (fun l => decide (p.id = l.idPost ∧ l.idUser = u)) := by
        rw [List.mem_filter]
        exact ⟨hl, by simpa using ⟨hlp.symm, hlu⟩⟩
      cases hh : (s.likes.filter (fun l => decide (p.id = l.idPost ∧ l.idUser = u))).head? with
      | none =>
        rw [List.head?_eq_none_iff] at hh
        rw [hh] at hmem
        simp at hmem
      | some m =>
        have hm := List.mem_of_mem_head? hh
        rw [List.mem_filter] at hm
        have h2 : p.id = m.idPost ∧ m.idUser = u := by simpa using hm.2
        exact ⟨m, rfl, h2.2⟩
  rw [hiff]
  show _ ∧ p.deletedAt = none ∧ p.createdAt < c ↔ _
  tauto

/-- C7, as stated, fails: a post liked by the user is missing from the result
when the limit is 0, when the cursor is not above its `createdAt`, and when
the post has been soft-deleted. -/
theorem ListLikedByUser_literal_counterexample :
    (∃ l ∈ sampleDb.likes, l.idPost = "p1" ∧ l.idUser = "bob") ∧
    "p1" ∉ (ListLikedByUser sampleDb 0 "bob" 0).map (fun r => r.Id) ∧
    "p1" ∉ (ListLikedByUser sampleDb 50 "bob" 10).map (fun r => r.Id) ∧
    (∃ l ∈ (DeletePostById sampleDb 300 "p1" "alice").db.likes,
      l.idPost = "p1" ∧ l.idUser = "bob") ∧
    "p1" ∉ (ListLikedByUser (DeletePostById sampleDb 300 "p1" "alice").db 0 "bob" 10).map
      (fun r => r.Id) := by
  decide

/-- C7, amended: in every store state, for every user `u`, cursor and limit,
`ListLikedByUser(cursor, u, limit)` returns only live posts for which a like
row (post id, `u`) exists, each with `ISLiked = true`; a live post liked by `u`
whose `createdAt` is below the cursor (cursor 0 standing for 922337203685477)
is in the result when the limit is negative or at least the number of such
posts; and after `DeleteLike(P, u)` succeeds, `P` is not in the result. -/
theorem ListLikedByUser_spec (s : SqliteStorage) (hs : Reachable s) (u : String)
    (cursor limit : Int) :
    (∀ r ∈ ListLikedByUser s cursor u limit, r.ISLiked = true ∧
      ∃ p ∈ s.posts, p.id = r.Id ∧ p.deletedAt = none ∧
        ∃ l ∈ s.likes, l.idPost = p.id ∧ l.idUser = u) ∧
    (∀ p ∈ s.posts, p.deletedAt = none → p.createdAt < cursorOrStart cursor →
      (∃ l ∈ s.likes, l.idPost = p.id ∧ l.idUser = u) →
      (limit < 0 ∨ ((s.posts.filter (fun q => decide (q.deletedAt = none ∧
          q.createdAt < cursorOrStart cursor ∧
          ∃ l ∈ s.likes, l.idPost = q.id ∧ l.idUser = u))).length : Int) ≤ limit) →
      p.id ∈ (ListLikedByUser s cursor u limit).map (fun r => r.Id)) ∧
    (∀ P : String, (DeleteLike s P u).err = none →
      P ∉ (ListLikedByUser (DeleteLike s P u).db cursor u limit).map (fun r => r.Id)) := by
  refine ⟨ListLikedByUser_sound s u cursor limit, ?_, ?_⟩
  · intro p hp hlive hbelow hlike hlim
    obtain ⟨l, hl, hlp, hlu⟩ := hlike
    have hjoin : (p, some l) ∈ leftJoinLikes s u :=
      mem_leftJoinLikes.2 ⟨hp, Or.inr ⟨l, hl, ⟨hlp, hlu⟩, rfl⟩⟩
    have hfilt : (p, some l) ∈ (leftJoinLikes s u).filter
        (fun r => decide ((∃ l, r.2 = some l ∧ l.idUser = u) ∧ r.1.deletedAt = none ∧
          r.1.createdAt < cursorOrStart cursor)) := by
      rw [List.mem_filter]
      refine ⟨hjoin, ?_⟩
      simp only [decide_eq_true_eq]
      exact ⟨⟨l, rfl, hlu⟩, hlive, hbelow⟩
    have hsort := (orderByCreatedAtDesc_perm _).symm.subset hfilt
    have hlen : (orderByCreatedAtDesc ((leftJoinLikes s u).filter
        (fun r => decide ((∃ l, r.2 = some l ∧ l.idUser = u) ∧ r.1.deletedAt = none ∧
          r.1.createdAt < cursorOrStart cursor)))).length
        = (s.posts.filter (fun q => decide (q.deletedAt = none ∧
          q.createdAt < cursorOrStart cursor ∧
          ∃ l ∈ s.likes, l.idPost = q.id ∧ l.idUser = u))).length := by
      rw [(orderByCreatedAtDesc_perm _).length_eq, leftJoinLikes_eq_map hs.inv, List.filter_map,
        List.length_map]
      congr 1
      apply List.filter_congr
      intro q _
      exact liked_where_joinRow s u (cursorOrStart cursor) q
    have hall : sqlLimit limit (orderByCreatedAtDesc ((leftJoinLikes s u).filter
        (fun r => decide ((∃ l, r.2 = some l ∧ l.idUser = u) ∧ r.1.deletedAt = none ∧
          r.1.createdAt < cursorOrStart cursor))))
        = orderByCreatedAtDesc ((leftJoinLikes s u).filter
        (fun r => decide ((∃ l, r.2 = some l ∧ l.idUser = u) ∧ r.1.deletedAt = none ∧
          r.1.createdAt < cursorOrStart cursor))) := by
      unfold sqlLimit
      split_ifs with hneg
      · rfl
      · apply List.take_of_length_le
        rw [hlen]
        rcases hlim with hlim | hlim
        · exact absurd hlim hneg
        · omega
    refine List.mem_map.2 ⟨scanPost (p, some l), ?_, rfl⟩
    unfold ListLikedByUser
    rw [hall]
    exact List.mem_map_of_mem _ hsort
  · intro P hok hmem
    obtain ⟨r, hr, hrid⟩ := List.mem_map.1 hmem
    obtain ⟨_, q, _, hqid, _, l, hl, hlp, hlu⟩ :=
      ListLikedByUser_sound (DeleteLike s P u).db u cursor limit r hr
    exact DeleteLike_ok_likes s P u hok ⟨l, hl, by rw [hlp, hqid, hrid], hlu⟩

theorem ListLikedByUser_spec_witness :
    "p1" ∈ (ListLikedByUser sampleDb 0 "bob" 10).map (fun r => r.Id) ∧
    ((DeleteLike sampleDb "p1" "bob").err = none ∧
      "p1" ∉ (ListLikedByUser (DeleteLike sampleDb "p1" "bob").db 0 "bob" 10).map
        (fun r => r.Id)) :=
  ⟨(ListLikedByUser_spec sampleDb sampleDb_reachable "bob" 0 10).2.1
      ⟨"p1", "img1", "first", "alice", "alice01", "Alice", "pic-a", 1, 0, 100, 100, none⟩
      (by decide) rfl (by decide) (by decide) (by decide),
   by decide,
   (ListLikedByUser_spec sampleDb sampleDb_reachable "bob" 0 10).2.2 "p1" (by decide)⟩

/-! ## Keyset pagination -/

/-- A list that is newest first and has no two rows of the same `createdAt` is
strictly descending. -/
theorem strict_of_sorted_nodup {l : List PostRow} (h : l.Sorted newestFirst)
    (hn : (l.map (fun p => p.createdAt)).Nodup) :
    l.Pairwise (fun a b => a.createdAt > b.createdAt) := by
  have hne : l.Pairwise (fun a b => a.createdAt ≠ b.createdAt) := List.pairwise_map.1 hn
  exact (List.Pairwise.and h hne).imp (fun hab => lt_of_le_of_ne hab.1 (Ne.symm hab.2))

/-- Two orderings, newest first, of the same rows of pairwise distinct
`createdAt` are the same list. -/
theorem eq_of_perm_newestFirst {l₁ l₂ : List PostRow} (hp : l₁.Perm l₂)
    (h1 : l₁.Sorted newestFirst) (h2 : l₂.Sorted newestFirst)
    (hn : (l₁.map (fun p => p.createdAt)).Nodup) : l₁ = l₂ := by
  have s1 := strict_of_sorted_nodup h1 hn
  have s2 := strict_of_sorted_nodup h2 (((hp.map (fun p => p.createdAt)).nodup_iff).1 hn)
  haveI : IsAntisymm PostRow (fun a b => a.createdAt > b.createdAt) :=
    ⟨fun a b hab hba => absurd hab (not_lt.2 (le_of_lt hba))⟩
  exact List.eq_of_perm_of_sorted hp s1 s2

/-- With pairwise distinct `createdAt`, the selection of `ListPost` is the part
of the live feed below the cursor. -/
theorem sort_filter_below (s : SqliteStorage)
    (hn : (s.posts.map (fun p => p.createdAt)).Nodup) (c : Int) :
    (s.posts.filter (fun p => decide (p.deletedAt = none ∧ p.createdAt < c))).insertionSort
        newestFirst
      = (liveNewestFirst s).filter (fun p => decide (p.createdAt < c)) := by
  have hfilt : (s.posts.filter (fun p => decide (p.deletedAt = none))).filter
      (fun p => decide (p.createdAt < c))
      = s.posts.filter (fun p => decide (p.deletedAt = none ∧ p.createdAt < c)) := by
    rw [List.filter_filter]
    apply List.filter_congr
    intro p _
    by_cases h1 : p.deletedAt = none <;> by_cases h2 : p.createdAt < c <;> simp [h1, h2]
  have hsub : (s.posts.filter (fun p => decide (p.deletedAt = none ∧ p.createdAt < c))).Sublist
      s.posts := List.filter_sublist _
  apply eq_of_perm_newestFirst
  · refine (List.perm_insertionSort newestFirst _).trans ?_
    rw [← hfilt]
    exact ((List.perm_insertionSort newestFirst _).filter _).symm
  · exact List.sorted_insertionSort newestFirst _
  · exact List.Pairwise.filter _ (List.sorted_insertionSort newestFirst _)
  · exact (((List.perm_insertionSort newestFirst _).map (fun p => p.createdAt)).nodup_iff).2
      (hn.sublist (hsub.map _))

/-- In a strictly descending list, every row is at least as new as the last. -/
theorem last_is_oldest {M : List PostRow} {y : PostRow}
    (hs : M.Pairwise (fun a b => a.createdAt > b.createdAt)) (hy : y ∈ M.getLast?) :
    ∀ a ∈ M, y.createdAt ≤ a.createdAt := by
  have hM := List.dropLast_append_getLast? y hy
  rw [← hM] at hs ⊢
  rw [List.pairwise_append] at hs
  intro a ha
  rcases List.mem_append.1 ha with ha | ha
  · exact le_of_lt (hs.2.2 a ha y (List.mem_singleton_self y))
  · rw [List.mem_singleton] at ha
    rw [ha]

/-- The loop over a strictly descending feed: started at a cursor that selects
the suffix `d`, it stops and has returned exactly `d`. -/
theorem traverse_suffix (s : SqliteStorage) (v : String) (limit : Int) (F : PostRow → Post)
    (hF : ∀ p, (F p).CreatedAt = p.createdAt) (L : List PostRow)
    (hstrict : L.Pairwise (fun a b => a.createdAt > b.createdAt))
    (hnz : ∀ p ∈ L, p.createdAt ≠ 0) (n : Nat) (hn : 1 ≤ n)
    (hpage : ∀ c, ListPost s v c limit
      = ((L.filter (fun p => decide (p.createdAt < cursorOrStart c))).take n).map F) :
    ∀ (fuel : Nat) (M d : List PostRow) (c : Int), L = M ++ d →
      L.filter (fun p => decide (p.createdAt < cursorOrStart c)) = d → d.length < fuel →
      traverseListPost s v limit fuel c = some (d.map F) := by
  intro fuel
  induction fuel with
  | zero => intro M d c _ _ hlen; exact absurd hlen (Nat.not_lt_zero _)
  | succ fuel ih =>
    intro M d c hL hsel hlen
    unfold traverseListPost
    simp only
    rw [hpage c, hsel, List.getLast?_map]
    cases hlast : (d.take n).getLast? with
    | none =>
      rw [List.getLast?_eq_none_iff] at hlast
      have hd : d = [] := by
        cases d with
        | nil => rfl
        | cons x xs =>
          obtain ⟨k, rfl⟩ : ∃ k, n = k + 1 := ⟨n - 1, by omega⟩
          simp at hlast
      subst hd
      rfl
    | some y =>
      simp only [Option.map_some']
      have hsplit : L = (M ++ d.take n) ++ d.drop n := by
        rw [List.append_assoc, List.take_append_drop]
        exact hL
      have hne : d.take n ≠ [] := by
        intro h0
        rw [h0] at hlast
        simp at hlast
      have hyM : y ∈ (M ++ d.take n).getLast? := by
        rw [List.getLast?_append_of_ne_nil _ hne, hlast]
        exact rfl
      have hymem : y ∈ M ++ d.take n := List.mem_of_mem_getLast? hyM
      have hyL : y ∈ L := by
        rw [hsplit]
        exact List.mem_append_left _ hymem
      have hP := hstrict
      rw [hsplit, List.pairwise_append] at hP
      have hcur : cursorOrStart (F y).CreatedAt = y.createdAt := by
        rw [hF]
        unfold cursorOrStart
        rw [if_neg (hnz y hyL)]
      have hnext : L.filter (fun p => decide (p.createdAt < cursorOrStart (F y).CreatedAt))
          = d.drop n := by
        rw [hcur]
        conv_lhs => rw [hsplit]
        rw [List.filter_append]
        have h1 : (M ++ d.take n).filter (fun p => decide (p.createdAt < y.createdAt)) = [] := by
          rw [List.filter_eq_nil_iff]
          intro a ha hdec
          have hlt : a.createdAt < y.createdAt := by simpa using hdec
          exact absurd hlt (not_lt.2 (last_is_oldest hP.1 hyM a ha))
        have h2 : (d.drop n).filter (fun p => decide (p.createdAt < y.createdAt)) = d.drop n := by
          rw [List.filter_eq_self]
          intro b hb
          simpa using hP.2.2 y hymem b hb
        rw [h1, h2, List.nil_append]
      have hshort : (d.drop n).length < fuel := by
        rw [List.length_drop]
        have : 0 < d.length := by
          cases d with
          | nil => simp at hne
          | cons x xs => simp
        omega
      rw [ih (M ++ d.take n) (d.drop n) (F y).CreatedAt hsplit hnext hshort]
      simp only [Option.map_some']
      rw [← List.map_append, List.take_append_drop]

/-- In a store state with pairwise distinct `createdAt`, a page of `ListPost`
with a positive limit is the first `limit` rows of the live feed below the
cursor. -/
theorem ListPost_eq_page {s : SqliteStorage} (hinv : Inv s)
    (hn : (s.posts.map (fun p => p.createdAt)).Nodup) (v : String) (limit : Int)
    (hlimit : 1 ≤ limit) (c : Int) :
    ListPost s v c limit
      = (((liveNewestFirst s).filter (fun p => decide (p.createdAt < cursorOrStart c))).take
          limit.toNat).map
          (fun p => postWithFlag p (decide (∃ l ∈ s.likes, l.idPost = p.id ∧ l.idUser = v))) := by
  have heq := feed_eq hinv v
    (fun p => decide (p.deletedAt = none ∧ p.createdAt < cursorOrStart c)) limit
  have hR : ListPost s v c limit
      = (sqlLimit limit ((s.posts.filter (fun p => decide (p.deletedAt = none ∧
          p.createdAt < cursorOrStart c))).insertionSort newestFirst)).map
        (fun p => postWithFlag p (decide (∃ l ∈ s.likes, l.idPost = p.id ∧ l.idUser = v))) :=
    heq
  rw [hR, sort_filter_below s hn, sqlLimit, if_neg (by omega)]

/-- C5, as stated, fails.  A post created when the clock read 922337203685477
is never returned: the traversal with limit 1 stops on an empty first page.
A post created when the clock read 0 sends the traversal back to cursor 0: it
never stops. -/
theorem traverseListPost_literal_counterexample :
    ((lateDb.posts.map (fun p => p.createdAt)).Nodup ∧
      "p1" ∈ (lateDb.posts.filter (fun p => decide (p.deletedAt = none))).map (fun p => p.id) ∧
      ¬ ∃ fuel out, traverseListPost lateDb "bob" 1 fuel 0 = some out ∧
        "p1" ∈ out.map (fun r => r.Id)) ∧
    ((epochDb.posts.map (fun p => p.createdAt)).Nodup ∧
      ¬ ∃ fuel out, traverseListPost epochDb "bob" 1 fuel 0 = some out) := by
  refine ⟨⟨by decide, by decide, ?_⟩, by decide, ?_⟩
  · rintro ⟨fuel, out, hout, hmem⟩
    cases fuel with
    | zero => simp [traverseListPost] at hout
    | succ n =>
      have hpage : ListPost lateDb "bob" 0 1 = [] := by decide
      unfold traverseListPost at hout
      simp only [hpage] at hout
      have : out = [] := by
        injection hout with hout
        exact hout.symm
      rw [this] at hmem
      simp at hmem
  · rintro ⟨fuel, out, hout⟩
    have hnone : ∀ n : Nat, traverseListPost epochDb "bob" 1 n 0 = none := by
      intro n
      induction n with
      | zero => rfl
      | succ n ih =>
        have hpage : ListPost epochDb "bob" 0 1
            = [postWithFlag ⟨"p1", "img1", "early", "alice", "alice01", "Alice", "pic-a",
                0, 0, 0, 0, none⟩ false] := by decide
        unfold traverseListPost
        simp only [hpage, List.getLast?_singleton, postWithFlag, ih, Option.map_none']
    rw [hnone fuel] at hout
    simp at hout

/-- C5, amended: in every store state whose posts have pairwise distinct
`createdAt` and whose live posts have a `createdAt` other than 0 and below
922337203685477, for every page size `limit ≥ 1`, the traversal that calls
`ListPost` with cursor 0 and then with the `CreatedAt` of the last row of the
previous page, until a page is empty, stops (within one page more than there
are live posts) and has returned every live post exactly once, in strictly
descending `createdAt` order. -/
theorem traverseListPost_complete (s : SqliteStorage) (hs : Reachable s) (viewer : String)
    (limit : Int) (hlimit : 1 ≤ limit)
    (hdistinct : (s.posts.map (fun p => p.createdAt)).Nodup)
    (hrange : ∀ p ∈ s.posts, p.deletedAt = none →
      p.createdAt ≠ 0 ∧ p.createdAt < 922337203685477) :
    ∃ out : List Post,
      (∀ fuel, (s.posts.filter (fun p => decide (p.deletedAt = none))).length < fuel →
        traverseListPost s viewer limit fuel 0 = some out) ∧
      (out.map (fun r => r.Id)).Perm
        ((s.posts.filter (fun p => decide (p.deletedAt = none))).map (fun p => p.id)) ∧
      (out.map (fun r => r.Id)).Nodup ∧
      (out.map (fun r => r.CreatedAt)).Pairwise (fun a b => a > b) := by
  have hinv := hs.inv
  have hperm : (liveNewestFirst s).Perm (s.posts.filter (fun p => decide (p.deletedAt = none))) :=
    List.perm_insertionSort newestFirst _
  have hsub : (s.posts.filter (fun p => decide (p.deletedAt = none))).Sublist s.posts :=
    List.filter_sublist _
  have hlive : ∀ p ∈ liveNewestFirst s, p ∈ s.posts ∧ p.deletedAt = none := by
    intro p hp
    have := hperm.subset hp
    rw [List.mem_filter] at this
    exact ⟨this.1, by simpa using this.2⟩
  have hstrict : (liveNewestFirst s).Pairwise (fun a b => a.createdAt > b.createdAt) :=
    strict_of_sorted_nodup (List.sorted_insertionSort newestFirst _)
      (((hperm.map (fun p => p.createdAt)).nodup_iff).2 (hdistinct.sublist (hsub.map _)))
  have hstart : (liveNewestFirst s).filter (fun p => decide (p.createdAt < cursorOrStart 0))
      = liveNewestFirst s := by
    rw [List.filter_eq_self]
    intro p hp
    have := (hrange p (hlive p hp).1 (hlive p hp).2).2
    simpa [cursorOrStart] using this
  have hloop := traverse_suffix s viewer limit
    (fun p => postWithFlag p (decide (∃ l ∈ s.likes, l.idPost = p.id ∧ l.idUser = viewer)))
    (fun _ => rfl) (liveNewestFirst s) hstrict
    (fun p hp => (hrange p (hlive p hp).1 (hlive p hp).2).1) limit.toNat (by omega)
    (ListPost_eq_page hinv hdistinct viewer limit hlimit)
  refine ⟨(liveNewestFirst s).map
    (fun p => postWithFlag p (decide (∃ l ∈ s.likes, l.idPost = p.id ∧ l.idUser = viewer))),
    ?_, ?_, ?_, ?_⟩
  · intro fuel hfuel
    apply hloop fuel [] (liveNewestFirst s) 0 rfl hstart
    rw [hperm.length_eq]
    exact hfuel
  · rw [List.map_map]
    exact hperm.map _
  · rw [List.map_map]
    exact (((hperm.map (fun p => p.id)).nodup_iff).2 (hinv.postIds.sublist (hsub.map _)))
  · rw [List.map_map, List.pairwise_map]
    exact hstrict

theorem traverseListPost_complete_witness :
    ∃ out : List Post,
      (∀ fuel, (sampleDb.posts.filter (fun p => decide (p.deletedAt = none))).length < fuel →
        traverseListPost sampleDb "bob" 1 fuel 0 = some out) ∧
      (out.map (fun r => r.Id)).Perm
        ((sampleDb.posts.filter (fun p => decide (p.deletedAt = none))).map (fun p => p.id)) ∧
      (out.map (fun r => r.Id)).Nodup ∧
      (out.map (fun r => r.CreatedAt)).Pairwise (fun a b => a > b) :=
  traverseListPost_complete sampleDb sampleDb_reachable "bob" 1 (by decide) (by decide)
    (by decide)

end PostService
